import Mathlib

/-!
# Verification of the GP kernel-regression utilities of
# Distribution_Regression_Streams

Shallow embedding of `src/utils/experiments.py` (kernel-matrix
construction and augmentation, the RMSE / R² / MAPE evaluator, and the
experiment entry points) and of the `gamma` transform of
`src/src/kerES.py`.

Modelling conventions:
* Python floats are modelled as exact rationals (`ℚ`); `np.sqrt` forces
  one real-valued (`ℝ`) definition.
* A numpy operation that silently produces a non-finite float
  (`inf`/`NaN`, e.g. division by zero inside a metric, or the mean of an
  empty array) is modelled by `Option`, with `none` standing for the
  non-finite outcome.  No exception is raised in either case.
* `np.dot` on two 1-D arrays of different lengths raises a `ValueError`
  (the spec's `DimensionError`); a fallible kernel computation therefore
  returns `Option`, with `none` standing for the raised error and the
  absence of any partial result.
* A matrix is a list of rows (`List (List ℚ)`).
-/

namespace Distreg

/-- `np.dot` on two equal-length 1-D arrays: the sum of pairwise
products.  (All call sites guard the equal-length requirement via
`kerEntry?`.) -/
def dot (a b : List ℚ) : ℚ :=
  ((a.zip b).map fun p => p.1 * p.2).sum

/-- The shifted linear kernel entry `1. + np.dot(u, v)` as computed by
`precompute_K` / `augment_K_precomputed`; `none` models the
`ValueError` numpy raises when the two vectors have different lengths. -/
def kerEntry? (u v : List ℚ) : Option ℚ :=
  if u.length = v.length then some (1 + dot u v) else none

/-- Sequencing of a list of fallible computations: `some` of the list of
results when every element succeeds, `none` as soon as one fails
(modelling an exception aborting the surrounding loop with no partial
result). -/
def seqOpt {α : Type} : List (Option α) → Option (List α)
  | [] => some []
  | o :: t => o.bind fun a => (seqOpt t).map fun l => a :: l

/-- Entry `(i, j)` of the matrix built by `precompute_K`: the source
fills the lower triangle (`j ≤ i`) with `1. + np.dot(X[i], X[j])` and
mirrors it to the upper triangle. -/
def precEntry? (X : List (List ℚ)) (i j : Nat) : Option ℚ :=
  if j ≤ i then kerEntry? (X.getD i []) (X.getD j [])
  else kerEntry? (X.getD j []) (X.getD i [])

/-- `precompute_K(X)` from `src/utils/experiments.py`: the
`len(X) × len(X)` matrix with entries `1. + np.dot(X[i], X[j])`,
failing (with no partial matrix) as soon as some pair of feature
vectors has inconsistent lengths. -/
def precompute_K (X : List (List ℚ)) : Option (List (List ℚ)) :=
  seqOpt ((List.range X.length).map fun i =>
    seqOpt ((List.range X.length).map fun j => precEntry? X i j))

/-- `augment_K_precomputed(K, X_train, x_test)` from
`src/utils/experiments.py`: places `K` as the top-left
`len(X_train) × len(X_train)` block (numpy rejects a block of any other
shape), borders it with `1. + np.dot(X_train[i], x_test)` and puts
`1. + np.dot(x_test, x_test)` in the bottom-right corner. -/
def augment_K_precomputed (K : List (List ℚ)) (X_train : List (List ℚ))
    (x_test : List ℚ) : Option (List (List ℚ)) :=
  let n := X_train.length
  if K.length = n ∧ ∀ row ∈ K, row.length = n then
    (seqOpt ((List.range n).map fun i =>
        kerEntry? (X_train.getD i []) x_test)).bind fun border =>
      (kerEntry? x_test x_test).map fun corner =>
        ((List.range n).map fun i => K.getD i [] ++ [border.getD i 0]) ++
          [border ++ [corner]]
  else none

/-- `gamma(l)` from `src/src/kerES.py`: the body is `return l`; the
docstring's conversion `1. / (2 * l ** 2)` is commented out. -/
def gamma (l : ℚ) : ℚ := l

/-- `np.mean` of a nonempty array; `meanQ [] = 0` only ever feeds the
R² denominator, where the resulting `0` denominator is mapped to the
same non-finite outcome numpy produces for an empty mean. -/
def meanQ (l : List ℚ) : ℚ := l.sum / l.length

/-- `np.mean` where the non-finite result on an empty array matters:
`none` models the `NaN` numpy returns (with a warning, not an
exception) on an empty input. -/
def mean? (l : List ℚ) : Option ℚ :=
  if l.length = 0 then none else some (meanQ l)

/-- One insertion step of the stable sort by first component. -/
def insertPair (q : ℚ × ℚ) : List (ℚ × ℚ) → List (ℚ × ℚ)
  | [] => [q]
  | r :: t => if q.1 ≤ r.1 then q :: r :: t else r :: insertPair q t

/-- Stable insertion sort by first component. -/
def sortByFst : List (ℚ × ℚ) → List (ℚ × ℚ)
  | [] => []
  | q :: t => insertPair q (sortByFst t)

/-- The common preamble `order = np.argsort(y_); y_[order], pred[order]`
of the three metric functions: the entries of `y_` and `pred` paired up
and jointly reordered by ascending `y_` value. -/
def sortPairs (y_ pred : List ℚ) : List (ℚ × ℚ) :=
  sortByFst (y_.zip pred)

/-- `compute_rmse(y_, pred)` from `src/utils/experiments.py`:
`np.sqrt(np.mean((y_[order] - pred[order]) ** 2))`. -/
noncomputable def compute_rmse (y_ pred : List ℚ) : Option ℝ :=
  (mean? ((sortPairs y_ pred).map fun q => (q.1 - q.2) ^ 2)).map
    fun m => Real.sqrt (m : ℝ)

/-- `compute_MAPE(y_, pred)` from `src/utils/experiments.py`:
`np.mean(np.abs(y_[order] - pred[order]) / y_[order])`.  There is no
zero guard in the source: a zero entry of `y_` makes some quotient and
hence the mean non-finite (`inf`/`NaN`), modelled as `none`; no
exception is raised. -/
def compute_MAPE (y_ pred : List ℚ) : Option ℚ :=
  if ∀ q ∈ sortPairs y_ pred, q.1 ≠ 0 then
    mean? ((sortPairs y_ pred).map fun q => |q.1 - q.2| / q.1)
  else none

/-- The numerator `np.sum((pred[order] - y_[order]) ** 2)` of the R²
computation. -/
def r2_num (y_ pred : List ℚ) : ℚ :=
  ((sortPairs y_ pred).map fun q => (q.2 - q.1) ^ 2).sum

/-- The denominator `np.sum((y_[order] - np.mean(y_[order])) ** 2)` of
the R² computation (the centered sum of squares of `y_`). -/
def r2_denum (y_ pred : List ℚ) : ℚ :=
  ((sortPairs y_ pred).map
    fun q => (q.1 - meanQ ((sortPairs y_ pred).map Prod.fst)) ^ 2).sum

/-- `compute_r2(y_, pred)` from `src/utils/experiments.py`:
`1. - num / denum` with no guard on the denominator; a zero denominator
makes the float quotient non-finite (modelled `none`); no exception is
raised. -/
def compute_r2 (y_ pred : List ℚ) : Option ℚ :=
  if r2_denum y_ pred = 0 then none
  else some (1 - r2_num y_ pred / r2_denum y_ pred)

/-- Follows the spec's words ("this ordering has no effect on the
metric"): RMSE computed directly on the unsorted paired data, for
comparison with `compute_rmse`. -/
noncomputable def rmse_unordered (y_ pred : List ℚ) : Option ℝ :=
  (mean? ((y_.zip pred).map fun q => (q.1 - q.2) ^ 2)).map
    fun m => Real.sqrt (m : ℝ)

/-- Follows the spec's words: MAPE computed directly on the unsorted
paired data, for comparison with `compute_MAPE`. -/
def mape_unordered (y_ pred : List ℚ) : Option ℚ :=
  if ∀ q ∈ y_.zip pred, q.1 ≠ 0 then
    mean? ((y_.zip pred).map fun q => |q.1 - q.2| / q.1)
  else none

/-- Follows the spec's words: R² computed directly on the unsorted
paired data, for comparison with `compute_r2`. -/
def r2_unordered (y_ pred : List ℚ) : Option ℚ :=
  if ((y_.zip pred).map
      fun q => (q.1 - meanQ ((y_.zip pred).map Prod.fst)) ^ 2).sum = 0 then
    none
  else
    some (1 - ((y_.zip pred).map fun q => (q.2 - q.1) ^ 2).sum /
      ((y_.zip pred).map
        fun q => (q.1 - meanQ ((y_.zip pred).map Prod.fst)) ^ 2).sum)

/-- R² and MAPE values injected into the common float-value type used
for the experiment output tuples. -/
noncomputable def toRealMetric (o : Option ℚ) : Option ℝ :=
  o.map fun q => (q : ℝ)

/-- Modelled from the spec: the `GP_models` training loops
(`GP_naive.train`, `GP_sig.train`, `GP_sig_ARD.train`,
`GP_sig_ARD_full.train`) are not in the repository slice.  Per the spec
(§4.4) `train(model, num_steps, mode)` runs a fixed number of
first-order update steps on the model with no convergence check;
modelled as iterating an abstract step function exactly `num_steps`
times. -/
def train (σ : Type) (step : σ → σ) (model : σ) : Nat → σ
  | 0 => model
  | n + 1 => step (train σ step model n)

/-- `naive_experiment(...)` from `src/utils/experiments.py` (lines
121–170): trains the GP for the literal budget of 2000 steps, predicts
on train and test inputs, and returns the six-element tuple
`(RMSE_train, R2_train, MAPE_train, RMSE_test, R2_test, MAPE_test)`.
The GP model state, its step function and its predictors are abstract
parameters (the `GP_models` package is outside the repository slice);
the Python float tuple is modelled as a list of float values. -/
noncomputable def naive_experiment (σ : Type) (step : σ → σ) (model0 : σ)
    (predictTrain predictTest : σ → List ℚ)
    (y_train y_test : List ℚ) : List (Option ℝ) :=
  let model := train σ step model0 2000
  let mu_train := predictTrain model
  let mu_test := predictTest model
  [compute_rmse y_train mu_train, toRealMetric (compute_r2 y_train mu_train),
    toRealMetric (compute_MAPE y_train mu_train),
    compute_rmse y_test mu_test, toRealMetric (compute_r2 y_test mu_test),
    toRealMetric (compute_MAPE y_test mu_test)]

/-- `experiment_precomputed(...)` from `src/utils/experiments.py`
(lines 173–232): trains for the literal budget of 20000 steps and
returns the same six-element metric tuple as `naive_experiment`. -/
noncomputable def experiment_precomputed (σ : Type) (step : σ → σ)
    (model0 : σ) (predictTrain predictTest : σ → List ℚ)
    (y_train y_test : List ℚ) : List (Option ℝ) :=
  let model := train σ step model0 20000
  let mu_train := predictTrain model
  let mu_test := predictTest model
  [compute_rmse y_train mu_train, toRealMetric (compute_r2 y_train mu_train),
    toRealMetric (compute_MAPE y_train mu_train),
    compute_rmse y_test mu_test, toRealMetric (compute_r2 y_test mu_test),
    toRealMetric (compute_MAPE y_test mu_test)]

/-- `experiment_ARD(...)` from `src/utils/experiments.py` (lines
235–296): trains for the literal budget of 3000 steps and returns only
`(RMSE_train, R2_train, RMSE_test, R2_test)` — no MAPE is computed —
together with the fitted lengthscale vector when `full` is true
(modelled as the second component of a pair, `none` when absent). -/
noncomputable def experiment_ARD (σ : Type) (full : Bool) (step : σ → σ)
    (model0 : σ) (predictTrain predictTest : σ → List ℚ)
    (lengthscalesOf : σ → List ℚ) (y_train y_test : List ℚ) :
    List (Option ℝ) × Option (List ℚ) :=
  let model := train σ step model0 3000
  let mu_train := predictTrain model
  let mu_test := predictTest model
  ([compute_rmse y_train mu_train, toRealMetric (compute_r2 y_train mu_train),
      compute_rmse y_test mu_test, toRealMetric (compute_r2 y_test mu_test)],
    if full then some (lengthscalesOf model) else none)

/-! ## Helper lemmas -/

theorem dot_cons (x y : ℚ) (xs ys : List ℚ) :
    dot (x :: xs) (y :: ys) = x * y + dot xs ys := by
  simp [dot]

theorem dot_comm (a b : List ℚ) : dot a b = dot b a := by
  induction a generalizing b with
  | nil => cases b <;> simp [dot]
  | cons x xs ih =>
    cases b with
    | nil => simp [dot]
    | cons y ys => rw [dot_cons, dot_cons, ih, mul_comm]

theorem dot_self_nonneg (a : List ℚ) : 0 ≤ dot a a := by
  induction a with
  | nil => simp [dot]
  | cons x xs ih =>
    rw [dot_cons]
    exact add_nonneg (mul_self_nonneg x) ih

theorem seqOpt_eq_some_iff {α : Type} (L : List (Option α)) (v : List α) :
    seqOpt L = some v ↔ L = v.map some := by
  induction L generalizing v with
  | nil => cases v <;> simp [seqOpt]
  | cons o t ih =>
    cases o with
    | none => cases v <;> simp [seqOpt]
    | some a =>
      cases v with
      | nil => simp [seqOpt, Option.map_eq_some']
      | cons b v' =>
        simp only [seqOpt, Option.bind_eq_bind, Option.some_bind,
          Option.map_eq_some', List.map_cons, List.cons.injEq,
          Option.some.injEq, ih]
        constructor
        · rintro ⟨l, hl, rfl, rfl⟩; exact ⟨rfl, hl⟩
        · rintro ⟨rfl, ht⟩; exact ⟨v', ht, rfl, rfl⟩

theorem seqOpt_eq_none_of_mem {α : Type} (L : List (Option α))
    (h : none ∈ L) : seqOpt L = none := by
  induction L with
  | nil => simp at h
  | cons o t ih =>
    cases o with
    | none => simp [seqOpt]
    | some a =>
      have ht : none ∈ t := by
        rcases List.mem_cons.mp h with h' | h'
        · exact absurd h' (by simp)
        · exact h'
      simp [seqOpt, ih ht]

theorem getD_map_range {α : Type} (n i : Nat) (f : Nat → α) (d : α)
    (hi : i < n) : ((List.range n).map f).getD i d = f i := by
  rw [List.getD_eq_getElem?_getD, List.getElem?_map, List.getElem?_range hi]
  rfl

theorem getD_eq_get {α : Type} (l : List α) (d : α) (i : Nat)
    (hi : i < l.length) : l.getD i d = l.get ⟨i, hi⟩ := by
  rw [List.getD_eq_getElem?_getD, List.getElem?_eq_getElem hi]
  rfl

theorem getD_mem_length {α : Type} (X : List (List α)) (i : Nat) (d : Nat)
    (hi : i < X.length) (h : ∀ x ∈ X, x.length = d) :
    (X.getD i []).length = d := by
  rw [getD_eq_get X [] i hi]
  exact h _ (X.get_mem i hi)

theorem precEntry?_eq_some (X : List (List ℚ)) (d i j : Nat)
    (hi : i < X.length) (hj : j < X.length) (h : ∀ x ∈ X, x.length = d) :
    precEntry? X i j = some (1 + dot (X.getD i []) (X.getD j [])) := by
  have hli := getD_mem_length X i d hi h
  have hlj := getD_mem_length X j d hj h
  unfold precEntry? kerEntry?
  by_cases hij : j ≤ i
  · rw [if_pos hij, if_pos (hli.trans hlj.symm)]
  · rw [if_neg hij, if_pos (hlj.trans hli.symm), dot_comm]

/-- The matrix `precompute_K` builds when all feature vectors have a
common length. -/
theorem precompute_K_eq_some (X : List (List ℚ)) (d : Nat)
    (h : ∀ x ∈ X, x.length = d) :
    precompute_K X = some ((List.range X.length).map fun i =>
      (List.range X.length).map fun j =>
        1 + dot (X.getD i []) (X.getD j [])) := by
  rw [precompute_K, seqOpt_eq_some_iff, List.map_map]
  refine List.map_congr_left fun i hi => ?_
  rw [Function.comp_apply, seqOpt_eq_some_iff, List.map_map]
  refine List.map_congr_left fun j hj => ?_
  rw [Function.comp_apply]
  exact precEntry?_eq_some X d i j (List.mem_range.mp hi)
    (List.mem_range.mp hj) h

theorem map_some_getD {α : Type} (K : List α) (d : α) (i : Nat)
    (hi : i < K.length) : (K.map some).getD i none = some (K.getD i d) := by
  rw [List.getD_eq_getElem?_getD, List.getElem?_map,
    List.getElem?_eq_getElem hi, getD_eq_get K d i hi]
  simp

/-- Entry extraction: whatever matrix `precompute_K` returns agrees
entrywise with `precEntry?`. -/
theorem precompute_K_entries (X K : List (List ℚ))
    (hK : precompute_K X = some K) :
    K.length = X.length ∧ ∀ i j, i < X.length → j < X.length →
      (K.getD i []).length = X.length ∧
      precEntry? X i j = some ((K.getD i []).getD j 0) := by
  rw [precompute_K, seqOpt_eq_some_iff] at hK
  have hlen : K.length = X.length := by
    have := congrArg List.length hK
    simpa using this.symm
  refine ⟨hlen, fun i j hi hj => ?_⟩
  have hrow : seqOpt ((List.range X.length).map fun j => precEntry? X i j)
      = some (K.getD i []) := by
    have h1 := congrArg (fun l => l.getD i none) hK
    simp only at h1
    rw [getD_map_range _ _ _ _ hi, map_some_getD K [] i (by omega)] at h1
    exact h1
  rw [seqOpt_eq_some_iff] at hrow
  have hrlen : (K.getD i []).length = X.length := by
    have := congrArg List.length hrow
    simpa using this.symm
  refine ⟨hrlen, ?_⟩
  have h2 := congrArg (fun l => l.getD j none) hrow
  simp only at h2
  rw [getD_map_range _ _ _ _ hj,
    map_some_getD (K.getD i []) 0 j (by omega)] at h2
  exact h2

theorem insertPair_perm (q : ℚ × ℚ) (l : List (ℚ × ℚ)) :
    (insertPair q l).Perm (q :: l) := by
  induction l with
  | nil => exact List.Perm.refl _
  | cons r t ih =>
    unfold insertPair
    by_cases h : q.1 ≤ r.1
    · rw [if_pos h]
    · rw [if_neg h]
      exact (ih.cons r).trans (List.Perm.swap q r t)

theorem sortByFst_perm (l : List (ℚ × ℚ)) : (sortByFst l).Perm l := by
  induction l with
  | nil => exact List.Perm.refl _
  | cons q t ih =>
    exact (insertPair_perm q (sortByFst t)).trans (ih.cons q)

theorem sortPairs_perm (y_ pred : List ℚ) :
    (sortPairs y_ pred).Perm (y_.zip pred) :=
  sortByFst_perm (y_.zip pred)

theorem sortPairs_congr {y_ pred y' pred' : List ℚ}
    (h : (y_.zip pred).Perm (y'.zip pred')) :
    (sortPairs y_ pred).Perm (sortPairs y' pred') :=
  ((sortPairs_perm y_ pred).trans h).trans (sortPairs_perm y' pred').symm

theorem mean?_congr {l l' : List ℚ} (h : l.Perm l') : mean? l = mean? l' := by
  unfold mean? meanQ
  rw [h.sum_eq, h.length_eq]

theorem meanQ_congr {l l' : List ℚ} (h : l.Perm l') : meanQ l = meanQ l' := by
  unfold meanQ
  rw [h.sum_eq, h.length_eq]

theorem compute_rmse_congr {y_ pred y' pred' : List ℚ}
    (h : (y_.zip pred).Perm (y'.zip pred')) :
    compute_rmse y_ pred = compute_rmse y' pred' := by
  unfold compute_rmse
  rw [mean?_congr ((sortPairs_congr h).map _)]

theorem compute_MAPE_congr {y_ pred y' pred' : List ℚ}
    (h : (y_.zip pred).Perm (y'.zip pred')) :
    compute_MAPE y_ pred = compute_MAPE y' pred' := by
  unfold compute_MAPE
  have hmem : ∀ q : ℚ × ℚ, q ∈ sortPairs y_ pred ↔ q ∈ sortPairs y' pred' :=
    fun _ => (sortPairs_congr h).mem_iff
  by_cases hz : ∀ q ∈ sortPairs y_ pred, q.1 ≠ 0
  · rw [if_pos hz, if_pos fun q hq => hz q ((hmem q).mpr hq),
      mean?_congr ((sortPairs_congr h).map _)]
  · rw [if_neg hz, if_neg fun hz' => hz fun q hq => hz' q ((hmem q).mp hq)]

theorem r2_num_congr {y_ pred y' pred' : List ℚ}
    (h : (y_.zip pred).Perm (y'.zip pred')) :
    r2_num y_ pred = r2_num y' pred' := by
  unfold r2_num
  exact ((sortPairs_congr h).map _).sum_eq

theorem r2_denum_congr {y_ pred y' pred' : List ℚ}
    (h : (y_.zip pred).Perm (y'.zip pred')) :
    r2_denum y_ pred = r2_denum y' pred' := by
  unfold r2_denum
  rw [meanQ_congr ((sortPairs_congr h).map Prod.fst)]
  exact ((sortPairs_congr h).map _).sum_eq

theorem compute_r2_congr {y_ pred y' pred' : List ℚ}
    (h : (y_.zip pred).Perm (y'.zip pred')) :
    compute_r2 y_ pred = compute_r2 y' pred' := by
  unfold compute_r2
  rw [r2_denum_congr h, r2_num_congr h]

theorem sum_zero_of_nonneg {l : List ℚ} (h : ∀ x ∈ l, 0 ≤ x)
    (hs : l.sum = 0) : ∀ x ∈ l, x = 0 := by
  induction l with
  | nil => simp
  | cons a t ih =>
    rw [List.sum_cons] at hs
    have ha : 0 ≤ a := h a (by simp)
    have ht : 0 ≤ t.sum := List.sum_nonneg fun x hx => h x (by simp [hx])
    have ha0 : a = 0 := by linarith
    have hts : t.sum = 0 := by linarith
    intro x hx
    rcases List.mem_cons.mp hx with rfl | hx'
    · exact ha0
    · exact ih (fun x' hx' => h x' (by simp [hx'])) hts x hx'

/-- The centered sum of squares of `y_` equals the R² denominator when
`pred` is at least as long as `y_` (the sort is a joint permutation). -/
theorem r2_denum_eq (y_ pred : List ℚ) (hlen : y_.length ≤ pred.length) :
    r2_denum y_ pred = (y_.map fun x => (x - meanQ y_) ^ 2).sum := by
  have hperm : ((sortPairs y_ pred).map Prod.fst).Perm y_ := by
    have h := (sortPairs_perm y_ pred).map Prod.fst
    rwa [List.map_fst_zip _ _ hlen] at h
  have hm : meanQ ((sortPairs y_ pred).map Prod.fst) = meanQ y_ :=
    meanQ_congr hperm
  unfold r2_denum
  rw [hm]
  have hmm : (sortPairs y_ pred).map (fun q => (q.1 - meanQ y_) ^ 2) =
      ((sortPairs y_ pred).map Prod.fst).map fun x => (x - meanQ y_) ^ 2 := by
    rw [List.map_map]
    rfl
  rw [hmm]
  exact (hperm.map _).sum_eq

theorem train_eq_iterate (σ : Type) (step : σ → σ) (m : σ) (n : Nat) :
    train σ step m n = step^[n] m := by
  induction n with
  | zero => rfl
  | succ k ih =>
    show step (train σ step m k) = _
    rw [ih]
    exact (Function.iterate_succ_apply' step k m).symm

/-- The matrix `augment_K_precomputed` builds when `K` is square of
the size of `X_train` and all feature vectors match `x_test` in
length. -/
theorem augment_eq_some (K X_train : List (List ℚ)) (x_test : List ℚ)
    (hK : K.length = X_train.length)
    (hrows : ∀ row ∈ K, row.length = X_train.length)
    (hdim : ∀ x ∈ X_train, x.length = x_test.length) :
    augment_K_precomputed K X_train x_test =
      some (((List.range X_train.length).map fun i =>
          K.getD i [] ++ [1 + dot (X_train.getD i []) x_test]) ++
        [((List.range X_train.length).map fun i =>
          1 + dot (X_train.getD i []) x_test) ++ [1 + dot x_test x_test]]) := by
  have hborder : seqOpt ((List.range X_train.length).map fun i =>
      kerEntry? (X_train.getD i []) x_test) =
      some ((List.range X_train.length).map fun i =>
        1 + dot (X_train.getD i []) x_test) := by
    rw [seqOpt_eq_some_iff, List.map_map]
    refine List.map_congr_left fun i hi => ?_
    rw [Function.comp_apply]
    unfold kerEntry?
    rw [if_pos (getD_mem_length X_train i x_test.length
      (List.mem_range.mp hi) hdim)]
  have hcorner : kerEntry? x_test x_test = some (1 + dot x_test x_test) := by
    unfold kerEntry?
    rw [if_pos rfl]
  simp only [augment_K_precomputed]
  rw [if_pos ⟨hK, hrows⟩, hborder, Option.some_bind, hcorner,
    Option.map_some', Option.some.injEq]
  congr 1
  refine List.map_congr_left fun i hi => ?_
  rw [getD_map_range _ _ _ _ (List.mem_range.mp hi)]

/-! ## Claim theorems -/

/-- C1: for every list `X` of equal-length feature vectors,
`precompute_K` returns a square `len(X) × len(X)` matrix `K` with
`K[i][j] = K[j][i] = 1 + ⟨X[i], X[j]⟩` (shifted linear kernel with
bias term 1). -/
theorem precompute_K_correct (X : List (List ℚ)) (d : Nat)
    (h : ∀ x ∈ X, x.length = d) :
    ∃ K, precompute_K X = some K ∧ K.length = X.length ∧
      ∀ i j, i < X.length → j < X.length →
        (K.getD i []).length = X.length ∧
        (K.getD i []).getD j 0 = 1 + dot (X.getD i []) (X.getD j []) ∧
        (K.getD i []).getD j 0 = (K.getD j []).getD i 0 := by
  refine ⟨_, precompute_K_eq_some X d h, by simp, fun i j hi hj => ?_⟩
  rw [getD_map_range _ _ _ _ hi, getD_map_range _ _ _ _ hj,
    getD_map_range _ _ _ _ hj, getD_map_range _ _ _ _ hi]
  exact ⟨by simp, rfl, by rw [dot_comm]⟩

/-- Witness for C1 at `X = [[1], [2]]`. -/
theorem precompute_K_correct_witness :
    (∀ x ∈ ([[1], [2]] : List (List ℚ)), x.length = 1) ∧
    (∃ K, precompute_K ([[1], [2]] : List (List ℚ)) = some K ∧
      K.length = ([[1], [2]] : List (List ℚ)).length ∧
      ∀ i j, i < ([[1], [2]] : List (List ℚ)).length →
        j < ([[1], [2]] : List (List ℚ)).length →
        (K.getD i []).length = ([[1], [2]] : List (List ℚ)).length ∧
        (K.getD i []).getD j 0 =
          1 + dot (([[1], [2]] : List (List ℚ)).getD i [])
            (([[1], [2]] : List (List ℚ)).getD j []) ∧
        (K.getD i []).getD j 0 = (K.getD j []).getD i 0) :=
  ⟨by decide, precompute_K_correct [[1], [2]] 1 (by decide)⟩

/-- C7: on feature vectors of inconsistent lengths, `precompute_K`
fails (`np.dot` raises) and returns no partially built matrix,
modelled as the `none` result. -/
theorem precompute_K_dim_mismatch (X : List (List ℚ))
    (h : ∃ a ∈ X, ∃ b ∈ X, a.length ≠ b.length) :
    precompute_K X = none := by
  obtain ⟨a, ha, b, hb, hne⟩ := h
  obtain ⟨i, hi, rfl⟩ := List.getElem_of_mem ha
  obtain ⟨j, hj, rfl⟩ := List.getElem_of_mem hb
  have e1 : X.getD i [] = X[i] := getD_eq_get X [] i hi
  have e2 : X.getD j [] = X[j] := getD_eq_get X [] j hj
  have hij : precEntry? X i j = none := by
    unfold precEntry? kerEntry?
    rw [e1, e2]
    by_cases hle : j ≤ i
    · rw [if_pos hle, if_neg hne]
    · rw [if_neg hle, if_neg fun hh => hne hh.symm]
  have hrow : seqOpt ((List.range X.length).map fun j' => precEntry? X i j')
      = none :=
    seqOpt_eq_none_of_mem _
      (List.mem_map.mpr ⟨j, List.mem_range.mpr hj, hij⟩)
  unfold precompute_K
  exact seqOpt_eq_none_of_mem _
    (List.mem_map.mpr ⟨i, List.mem_range.mpr hi, hrow⟩)

/-- Witness for C7 at `X = [[1], [1, 2]]`. -/
theorem precompute_K_dim_mismatch_witness :
    (∃ a ∈ ([[1], [1, 2]] : List (List ℚ)), ∃ b ∈ ([[1], [1, 2]] :
      List (List ℚ)), a.length ≠ b.length) ∧
    precompute_K ([[1], [1, 2]] : List (List ℚ)) = none :=
  ⟨by decide, precompute_K_dim_mismatch [[1], [1, 2]] (by decide)⟩

/-- C8: every diagonal entry of a matrix returned by `precompute_K` is
non-negative: it equals `1 + ⟨X[i], X[i]⟩` with `⟨X[i], X[i]⟩` a sum of
squares. -/
theorem precompute_K_diag_nonneg (X K : List (List ℚ))
    (hK : precompute_K X = some K) (i : Nat) (hi : i < X.length) :
    0 ≤ (K.getD i []).getD i 0 := by
  obtain ⟨-, hent⟩ := precompute_K_entries X K hK
  obtain ⟨-, hij⟩ := hent i i hi hi
  unfold precEntry? kerEntry? at hij
  rw [if_pos (le_refl i), if_pos rfl] at hij
  have h := Option.some.inj hij
  rw [← h]
  exact add_nonneg zero_le_one (dot_self_nonneg _)

/-- Witness for C8 at `X = [[1]]`, where `precompute_K X = [[2]]`. -/
theorem precompute_K_diag_nonneg_witness :
    precompute_K ([[1]] : List (List ℚ)) = some [[2]] ∧
    0 < ([[1]] : List (List ℚ)).length ∧
    0 ≤ (([[2]] : List (List ℚ)).getD 0 []).getD 0 0 :=
  ⟨by norm_num [precompute_K, seqOpt, precEntry?, kerEntry?, dot], by decide,
    precompute_K_diag_nonneg [[1]] [[2]]
      (by norm_num [precompute_K, seqOpt, precEntry?, kerEntry?, dot])
      0 (by decide)⟩

/-- C2: `augment_K_precomputed(K, X_train, x_test)` on an `n × n`
matrix `K` and dimensionally consistent inputs returns an
`(n+1) × (n+1)` matrix whose top-left `n × n` block equals `K`, whose
new border entries equal `1 + ⟨X_train[i], x_test⟩` on both the last
row and the last column, and whose bottom-right entry equals
`1 + ⟨x_test, x_test⟩`. -/
theorem augment_K_precomputed_correct (K X_train : List (List ℚ))
    (x_test : List ℚ) (hK : K.length = X_train.length)
    (hrows : ∀ row ∈ K, row.length = X_train.length)
    (hdim : ∀ x ∈ X_train, x.length = x_test.length) :
    ∃ M, augment_K_precomputed K X_train x_test = some M ∧
      M.length = X_train.length + 1 ∧
      (∀ i, i < X_train.length + 1 →
        (M.getD i []).length = X_train.length + 1) ∧
      (∀ i j, i < X_train.length → j < X_train.length →
        (M.getD i []).getD j 0 = (K.getD i []).getD j 0) ∧
      (∀ i, i < X_train.length →
        (M.getD X_train.length []).getD i 0 =
          1 + dot (X_train.getD i []) x_test ∧
        (M.getD i []).getD X_train.length 0 =
          1 + dot (X_train.getD i []) x_test) ∧
      (M.getD X_train.length []).getD X_train.length 0 =
        1 + dot x_test x_test := by
  refine ⟨_, augment_eq_some K X_train x_test hK hrows hdim, ?_, ?_, ?_, ?_, ?_⟩
  · simp
  · intro i hi
    rcases Nat.lt_or_ge i X_train.length with hlt | hge
    · rw [List.getD_append _ _ _ _ (by simpa using hlt),
        getD_map_range _ _ _ _ hlt]
      have hKi := getD_mem_length K i X_train.length (by omega) hrows
      simp only [List.length_append, hKi, List.length_singleton]
    · have hEq : i = X_train.length := by omega
      subst hEq
      rw [List.getD_append_right _ _ _ _ (by simp)]
      simp
  · intro i j hi hj
    rw [List.getD_append _ _ _ _ (by simpa using hi),
      getD_map_range _ _ _ _ hi]
    have hKi := getD_mem_length K i X_train.length (by omega) hrows
    rw [List.getD_append _ _ _ _ (by omega)]
  · intro i hi
    constructor
    · rw [List.getD_append_right _ _ _ _ (by simp)]
      simp only [List.length_map, List.length_range, Nat.sub_self]
      rw [List.getD_cons_zero, List.getD_append _ _ _ _ (by simpa using hi),
        getD_map_range _ _ _ _ hi]
    · rw [List.getD_append _ _ _ _ (by simpa using hi),
        getD_map_range _ _ _ _ hi]
      have hKi := getD_mem_length K i X_train.length (by omega) hrows
      rw [List.getD_append_right _ _ _ _ (by omega)]
      rw [hKi, Nat.sub_self, List.getD_cons_zero]
  · rw [List.getD_append_right _ _ _ _ (by simp)]
    simp only [List.length_map, List.length_range, Nat.sub_self]
    rw [List.getD_cons_zero,
      List.getD_append_right _ _ _ _ (by simp)]
    simp

/-- Witness for C2 at `K = [[2]]`, `X_train = [[1]]`, `x_test = [3]`. -/
theorem augment_K_precomputed_correct_witness :
    (([[2]] : List (List ℚ)).length = ([[1]] : List (List ℚ)).length ∧
      (∀ row ∈ ([[2]] : List (List ℚ)),
        row.length = ([[1]] : List (List ℚ)).length) ∧
      ∀ x ∈ ([[1]] : List (List ℚ)), x.length = ([3] : List ℚ).length) ∧
    (∃ M, augment_K_precomputed ([[2]] : List (List ℚ)) [[1]] [3] = some M ∧
      M.length = ([[1]] : List (List ℚ)).length + 1 ∧
      (∀ i, i < ([[1]] : List (List ℚ)).length + 1 →
        (M.getD i []).length = ([[1]] : List (List ℚ)).length + 1) ∧
      (∀ i j, i < ([[1]] : List (List ℚ)).length →
        j < ([[1]] : List (List ℚ)).length →
        (M.getD i []).getD j 0 =
          (([[2]] : List (List ℚ)).getD i []).getD j 0) ∧
      (∀ i, i < ([[1]] : List (List ℚ)).length →
        (M.getD ([[1]] : List (List ℚ)).length []).getD i 0 =
          1 + dot (([[1]] : List (List ℚ)).getD i []) [3] ∧
        (M.getD i []).getD ([[1]] : List (List ℚ)).length 0 =
          1 + dot (([[1]] : List (List ℚ)).getD i []) [3]) ∧
      (M.getD ([[1]] : List (List ℚ)).length []).getD
        ([[1]] : List (List ℚ)).length 0 = 1 + dot ([3] : List ℚ) [3]) :=
  ⟨⟨by decide, by decide, by decide⟩,
    augment_K_precomputed_correct [[2]] [[1]] [3]
      (by decide) (by decide) (by decide)⟩

/-- C3: RMSE, R² and MAPE return the same value on any common
permutation of `(y_true, y_pred)` (a permutation of the zipped pair
list); in particular the internal sort of both vectors by ascending
`y_true` has no effect on any of the three metric values (each equals
its unsorted counterpart). -/
theorem metrics_perm_invariant (y_ pred y' pred' : List ℚ)
    (hl : y_.length = pred.length) (hl' : y'.length = pred'.length)
    (hperm : (y_.zip pred).Perm (y'.zip pred')) :
    (compute_rmse y_ pred = compute_rmse y' pred' ∧
      compute_r2 y_ pred = compute_r2 y' pred' ∧
      compute_MAPE y_ pred = compute_MAPE y' pred') ∧
    (compute_rmse y_ pred = rmse_unordered y_ pred ∧
      compute_r2 y_ pred = r2_unordered y_ pred ∧
      compute_MAPE y_ pred = mape_unordered y_ pred) := by
  refine ⟨⟨compute_rmse_congr hperm, compute_r2_congr hperm,
    compute_MAPE_congr hperm⟩, ?_, ?_, ?_⟩
  · unfold compute_rmse rmse_unordered
    rw [mean?_congr ((sortPairs_perm y_ pred).map _)]
  · unfold compute_r2 r2_unordered r2_num r2_denum
    rw [meanQ_congr ((sortPairs_perm y_ pred).map Prod.fst),
      ((sortPairs_perm y_ pred).map
        (fun q => (q.1 - meanQ ((y_.zip pred).map Prod.fst)) ^ 2)).sum_eq,
      ((sortPairs_perm y_ pred).map (fun q => (q.2 - q.1) ^ 2)).sum_eq]
  · unfold compute_MAPE mape_unordered
    have hmem : ∀ q : ℚ × ℚ, q ∈ sortPairs y_ pred ↔ q ∈ y_.zip pred :=
      fun _ => (sortPairs_perm y_ pred).mem_iff
    by_cases hz : ∀ q ∈ sortPairs y_ pred, q.1 ≠ 0
    · rw [if_pos hz, if_pos fun q hq => hz q ((hmem q).mpr hq),
        mean?_congr ((sortPairs_perm y_ pred).map _)]
    · rw [if_neg hz, if_neg fun hz' => hz fun q hq => hz' q ((hmem q).mp hq)]

/-- Witness for C3 at `(y, pred) = ([1, 2], [3, 4])` and its reversal
`([2, 1], [4, 3])`. -/
theorem metrics_perm_invariant_witness :
    (([1, 2] : List ℚ).length = ([3, 4] : List ℚ).length ∧
      ([2, 1] : List ℚ).length = ([4, 3] : List ℚ).length ∧
      (([1, 2] : List ℚ).zip [3, 4]).Perm (([2, 1] : List ℚ).zip [4, 3])) ∧
    ((compute_rmse [1, 2] [3, 4] = compute_rmse [2, 1] [4, 3] ∧
      compute_r2 [1, 2] [3, 4] = compute_r2 [2, 1] [4, 3] ∧
      compute_MAPE [1, 2] [3, 4] = compute_MAPE [2, 1] [4, 3]) ∧
    (compute_rmse [1, 2] [3, 4] = rmse_unordered [1, 2] [3, 4] ∧
      compute_r2 [1, 2] [3, 4] = r2_unordered [1, 2] [3, 4] ∧
      compute_MAPE [1, 2] [3, 4] = mape_unordered [1, 2] [3, 4])) :=
  ⟨⟨by decide, by decide, by decide⟩,
    metrics_perm_invariant [1, 2] [3, 4] [2, 1] [4, 3]
      (by decide) (by decide) (by decide)⟩

/-- C5 counterexample: at `y_true = [0]`, `y_pred = [1]`,
`compute_MAPE` silently yields the non-finite float value (modelled
`none`) rather than surfacing an `UndefinedMetricError`: the source has
no zero guard and numpy only emits a warning. -/
theorem compute_MAPE_zero_silent :
    (0 : ℚ) ∈ ([0] : List ℚ) ∧ compute_MAPE [0] [1] = none := by
  decide

/-- C5 (amended): `compute_MAPE` performs no zero guard: a zero entry
of `y_true` silently makes the result non-finite, and for every
equal-length input with no zero entry of `y_true` it returns the mean
of `|y_true[i] - y_pred[i]| / y_true[i]`. -/
theorem compute_MAPE_no_zero_mean (y_ pred : List ℚ)
    (hl : y_.length = pred.length) (hz : ∀ a ∈ y_, a ≠ 0) :
    compute_MAPE y_ pred =
      mean? ((y_.zip pred).map fun q => |q.1 - q.2| / q.1) := by
  unfold compute_MAPE
  have hzq : ∀ q ∈ sortPairs y_ pred, q.1 ≠ 0 := by
    rintro ⟨a, b⟩ hq
    have hmem : (a, b) ∈ y_.zip pred :=
      (sortPairs_perm y_ pred).mem_iff.mp hq
    exact hz a (List.of_mem_zip hmem).1
  rw [if_pos hzq, mean?_congr ((sortPairs_perm y_ pred).map _)]

/-- Witness for C5's amended theorem at `y_true = [1, 2]`,
`y_pred = [1, 1]`. -/
theorem compute_MAPE_no_zero_mean_witness :
    (([1, 2] : List ℚ).length = ([1, 1] : List ℚ).length ∧
      ∀ a ∈ ([1, 2] : List ℚ), a ≠ 0) ∧
    compute_MAPE [1, 2] [1, 1] =
      mean? ((([1, 2] : List ℚ).zip [1, 1]).map fun q => |q.1 - q.2| / q.1) :=
  ⟨⟨by decide, by decide⟩,
    compute_MAPE_no_zero_mean [1, 2] [1, 1] (by decide) (by decide)⟩

/-- C10: `compute_r2` divides by the centered sum of squares of
`y_true` with no guard: when `y_true` has two distinct values that
denominator is strictly positive and the division is performed; when
`y_true` is constant the denominator is exactly `0` and the result is
the silent non-finite value (modelled `none`), not an error. -/
theorem compute_r2_denominator (y_ pred : List ℚ)
    (hl : y_.length = pred.length) :
    ((∃ a ∈ y_, ∃ b ∈ y_, a ≠ b) →
      0 < r2_denum y_ pred ∧
      compute_r2 y_ pred =
        some (1 - r2_num y_ pred / r2_denum y_ pred)) ∧
    ((∀ a ∈ y_, ∀ b ∈ y_, a = b) →
      r2_denum y_ pred = 0 ∧ compute_r2 y_ pred = none) := by
  have hde := r2_denum_eq y_ pred (le_of_eq hl)
  constructor
  · rintro ⟨a, ha, b, hb, hab⟩
    have hnn : ∀ x ∈ y_.map fun x => (x - meanQ y_) ^ 2, 0 ≤ x := by
      intro x hx
      obtain ⟨u, -, rfl⟩ := List.mem_map.mp hx
      positivity
    have hpos : 0 < r2_denum y_ pred := by
      rw [hde]
      rcases lt_or_eq_of_le (List.sum_nonneg hnn) with hlt | hEq
      · exact hlt
      · exfalso
        have hall := sum_zero_of_nonneg hnn hEq.symm
        have hA : a - meanQ y_ = 0 :=
          (pow_eq_zero_iff (two_ne_zero)).mp
            (hall _ (List.mem_map_of_mem _ ha))
        have hB : b - meanQ y_ = 0 :=
          (pow_eq_zero_iff (two_ne_zero)).mp
            (hall _ (List.mem_map_of_mem _ hb))
        exact hab (by linarith)
    refine ⟨hpos, ?_⟩
    unfold compute_r2
    rw [if_neg (ne_of_gt hpos)]
  · intro hconst
    have hz : r2_denum y_ pred = 0 := by
      rw [hde]
      cases y_ with
      | nil => simp
      | cons c t =>
        have hall : ∀ x ∈ c :: t, x = c :=
          fun x hx => hconst x hx c (List.mem_cons_self c t)
        have hmean : meanQ (c :: t) = c := by
          unfold meanQ
          rw [List.sum_eq_card_nsmul _ c hall, nsmul_eq_mul]
          exact mul_div_cancel_left₀ c (Nat.cast_ne_zero.mpr (by simp))
        apply List.sum_eq_zero
        intro x hx
        obtain ⟨u, hu, rfl⟩ := List.mem_map.mp hx
        rw [hmean, hall u hu, sub_self]
        norm_num
    refine ⟨hz, ?_⟩
    unfold compute_r2
    rw [if_pos hz]

/-- Witness for C10 at `y_true = [1, 2]`, `y_pred = [5, 7]`. -/
theorem compute_r2_denominator_witness :
    ([1, 2] : List ℚ).length = ([5, 7] : List ℚ).length ∧
    (((∃ a ∈ ([1, 2] : List ℚ), ∃ b ∈ ([1, 2] : List ℚ), a ≠ b) →
      0 < r2_denum [1, 2] [5, 7] ∧
      compute_r2 [1, 2] [5, 7] =
        some (1 - r2_num [1, 2] [5, 7] / r2_denum [1, 2] [5, 7])) ∧
    ((∀ a ∈ ([1, 2] : List ℚ), ∀ b ∈ ([1, 2] : List ℚ), a = b) →
      r2_denum [1, 2] [5, 7] = 0 ∧ compute_r2 [1, 2] [5, 7] = none)) :=
  ⟨by decide, compute_r2_denominator [1, 2] [5, 7] (by decide)⟩

/-- C6: `gamma` returns its argument unchanged (identity pass-through)
and does not apply the `1 / (2 l²)` RBF-width conversion described in
its own docstring. -/
theorem gamma_id : (∀ l : ℚ, gamma l = l) ∧ gamma 2 ≠ 1 / (2 * 2 ^ 2) :=
  ⟨fun _ => rfl, by norm_num [gamma]⟩

/-- C4 counterexample: `experiment_ARD` does not return a six-element
metric tuple — at a concrete input its metric tuple has four
components (MAPE is never computed). -/
theorem experiment_ARD_not_six_tuple :
    (experiment_ARD Unit true id () (fun _ => [1]) (fun _ => [1])
      (fun _ => [1]) [1] [1]).1.length = 4 ∧ (4 : Nat) ≠ 6 :=
  ⟨rfl, by decide⟩

/-- C4 (amended): `naive_experiment` and `experiment_precomputed`
return the six-element tuple (train RMSE, train R², train MAPE, test
RMSE, test R², test MAPE) of metrics of the trained model's
predictions; `experiment_ARD` returns only (train RMSE, train R², test
RMSE, test R²) — it computes no MAPE — with the fitted lengthscale
vector as an additional component exactly in the full-ARD variant. -/
theorem experiment_output_tuples (σ : Type) (full : Bool) (step : σ → σ)
    (model0 : σ) (pTr pTe ls : σ → List ℚ) (y_train y_test : List ℚ) :
    (∃ m : σ, naive_experiment σ step model0 pTr pTe y_train y_test =
      [compute_rmse y_train (pTr m), toRealMetric (compute_r2 y_train (pTr m)),
        toRealMetric (compute_MAPE y_train (pTr m)),
        compute_rmse y_test (pTe m), toRealMetric (compute_r2 y_test (pTe m)),
        toRealMetric (compute_MAPE y_test (pTe m))]) ∧
    (∃ m : σ, experiment_precomputed σ step model0 pTr pTe y_train y_test =
      [compute_rmse y_train (pTr m), toRealMetric (compute_r2 y_train (pTr m)),
        toRealMetric (compute_MAPE y_train (pTr m)),
        compute_rmse y_test (pTe m), toRealMetric (compute_r2 y_test (pTe m)),
        toRealMetric (compute_MAPE y_test (pTe m))]) ∧
    (∃ m : σ, experiment_ARD σ full step model0 pTr pTe ls y_train y_test =
      ([compute_rmse y_train (pTr m), toRealMetric (compute_r2 y_train (pTr m)),
          compute_rmse y_test (pTe m),
          toRealMetric (compute_r2 y_test (pTe m))],
        if full then some (ls m) else none)) :=
  ⟨⟨train σ step model0 2000, rfl⟩, ⟨train σ step model0 20000, rfl⟩,
    ⟨train σ step model0 3000, rfl⟩⟩

/-- C9: the modelled training loop applies the update step exactly
`n` times (termination purely by step count, no convergence check),
and the experiment entry points invoke it with the fixed literal
budgets 2000 (`naive_experiment`), 20000 (`experiment_precomputed`)
and 3000 (`experiment_ARD`), all within the 2000–20000 range. -/
theorem train_step_budgets (σ : Type) (full : Bool) (step : σ → σ)
    (model0 : σ) (pTr pTe ls : σ → List ℚ) (y_train y_test : List ℚ) :
    (∀ n, train σ step model0 n = step^[n] model0) ∧
    (2000 ≤ 2000 ∧ 2000 ≤ 20000 ∧ 2000 ≤ 20000 ∧ 20000 ≤ 20000 ∧
      2000 ≤ 3000 ∧ 3000 ≤ 20000) ∧
    naive_experiment σ step model0 pTr pTe y_train y_test =
      (fun m => [compute_rmse y_train (pTr m),
        toRealMetric (compute_r2 y_train (pTr m)),
        toRealMetric (compute_MAPE y_train (pTr m)),
        compute_rmse y_test (pTe m), toRealMetric (compute_r2 y_test (pTe m)),
        toRealMetric (compute_MAPE y_test (pTe m))]) (step^[2000] model0) ∧
    experiment_precomputed σ step model0 pTr pTe y_train y_test =
      (fun m => [compute_rmse y_train (pTr m),
        toRealMetric (compute_r2 y_train (pTr m)),
        toRealMetric (compute_MAPE y_train (pTr m)),
        compute_rmse y_test (pTe m), toRealMetric (compute_r2 y_test (pTe m)),
        toRealMetric (compute_MAPE y_test (pTe m))]) (step^[20000] model0) ∧
    experiment_ARD σ full step model0 pTr pTe ls y_train y_test =
      (fun m => ([compute_rmse y_train (pTr m),
          toRealMetric (compute_r2 y_train (pTr m)),
          compute_rmse y_test (pTe m),
          toRealMetric (compute_r2 y_test (pTe m))],
        if full then some (ls m) else none)) (step^[3000] model0) := by
  refine ⟨train_eq_iterate σ step model0, by norm_num, ?_, ?_, ?_⟩
  · simp only [naive_experiment, train_eq_iterate]
  · simp only [experiment_precomputed, train_eq_iterate]
  · simp only [experiment_ARD, train_eq_iterate]

end Distreg
